import Mathlib

/-!
Verification of the AutoGen-CC-Integration repository's specification
against a shallow embedding of its Python sources.

Each Python function relevant to the claims is translated into a Lean
definition; effects (network calls, sleeps, exceptions) are made explicit
as data (call traces, `Except`, action labels).
-/

namespace AutoGenCC

/-! ## Retry helpers

Embedding of `async_retry` from `src/autogen/utils/helpers.py` and of the
`create_with_retry` closure installed by `ClaudeCodeConfig.get_model_client`
in `src/autogen/config.py`.

The wrapped async function is modelled as `f : Nat → Except ε α`, giving the
outcome of its `i`-th invocation (0-based).  A run of the wrapper is recorded
as a `RetryTrace`: the final outcome (`Except (Option ε) α`, where
`.error none` corresponds to Python's `raise None` when `max_attempts = 0`),
the number of calls made to `f`, and the list of sleep durations, in order.
-/

structure RetryTrace (ε α : Type) where
  result : Except (Option ε) α
  calls : Nat
  sleeps : List ℚ
  deriving Repr

/-- The `for attempt in range(max_attempts)` loop of `async_retry`'s `wrapper`
(helpers.py lines 65-78): try the call; on success return its value; on
failure remember the error and, unless this was the last attempt, sleep
`delay * backoff ** attempt`; after the loop re-raise the last error. -/
def asyncRetryGo (f : Nat → Except ε α) (delay backoff : ℚ)
    (maxAttempts attempt : Nat) (lastError : Option ε) (calls : Nat)
    (sleeps : List ℚ) : RetryTrace ε α :=
  if attempt < maxAttempts then
    match f attempt with
    | .ok a => ⟨.ok a, calls + 1, sleeps⟩
    | .error e =>
        let sleeps2 := if attempt < maxAttempts - 1
          then sleeps ++ [delay * backoff ^ attempt] else sleeps
        asyncRetryGo f delay backoff maxAttempts (attempt + 1) (some e)
          (calls + 1) sleeps2
  else ⟨.error lastError, calls, sleeps⟩
  termination_by maxAttempts - attempt

/-- `async_retry(max_attempts, delay, backoff)` applied to a function whose
`i`-th call has outcome `f i`: run the wrapper loop from attempt 0 with
`last_error = None`. -/
def async_retry (f : Nat → Except ε α) (max_attempts : Nat)
    (delay backoff : ℚ) : RetryTrace ε α :=
  asyncRetryGo f delay backoff max_attempts 0 none 0 []

/-- The `create_with_retry` loop from `config.py` lines 84-98: identical
shape, with the backoff factor hard-coded to 2
(`wait_time = retry_delay * (2 ** attempt)`). -/
def createWithRetryGo (f : Nat → Except ε α) (retryDelay : ℚ)
    (maxRetries attempt : Nat) (lastError : Option ε) (calls : Nat)
    (sleeps : List ℚ) : RetryTrace ε α :=
  if attempt < maxRetries then
    match f attempt with
    | .ok a => ⟨.ok a, calls + 1, sleeps⟩
    | .error e =>
        let sleeps2 := if attempt < maxRetries - 1
          then sleeps ++ [retryDelay * (2 : ℚ) ^ attempt] else sleeps
        createWithRetryGo f retryDelay maxRetries (attempt + 1) (some e)
          (calls + 1) sleeps2
  else ⟨.error lastError, calls, sleeps⟩
  termination_by maxRetries - attempt

/-- `create_with_retry` with `max_retries` and `retry_delay` as installed by
`ClaudeCodeConfig.get_model_client`. -/
def create_with_retry (f : Nat → Except ε α) (max_retries : Nat)
    (retry_delay : ℚ) : RetryTrace ε α :=
  createWithRetryGo f retry_delay max_retries 0 none 0 []

/-- `create_with_retry`'s loop is the `async_retry` loop specialised to
backoff factor 2. -/
theorem createWithRetryGo_eq_asyncRetryGo (f : Nat → Except ε α)
    (retryDelay : ℚ) (maxRetries attempt : Nat) (lastError : Option ε)
    (calls : Nat) (sleeps : List ℚ) :
    createWithRetryGo f retryDelay maxRetries attempt lastError calls sleeps =
      asyncRetryGo f retryDelay 2 maxRetries attempt lastError calls sleeps := by
  rw [createWithRetryGo, asyncRetryGo]
  split
  · split
    · rfl
    · exact createWithRetryGo_eq_asyncRetryGo f retryDelay maxRetries _ _ _ _
  · rfl
  termination_by maxRetries - attempt

theorem create_with_retry_eq (f : Nat → Except ε α) (M : Nat) (d : ℚ) :
    create_with_retry f M d = async_retry f M d 2 :=
  createWithRetryGo_eq_asyncRetryGo f d M 0 none 0 []

/-- If every attempt from `attempt` on (below `M`) fails, the loop performs
all the remaining calls, sleeps after each failed attempt except the last,
and ends by raising the error of attempt `M - 1`. -/
theorem asyncRetryGo_all_fail (f : Nat → Except ε α) (d b : ℚ) (M : Nat)
    (es : Nat → ε) (attempt : Nat) (lastError : Option ε) (calls : Nat)
    (sleeps : List ℚ) (hlt : attempt < M)
    (hf : ∀ j, attempt ≤ j → j < M → f j = .error (es j)) :
    asyncRetryGo f d b M attempt lastError calls sleeps =
      ⟨.error (some (es (M - 1))), calls + (M - attempt),
        sleeps ++ (List.range' attempt (M - 1 - attempt)).map
          (fun i => d * b ^ i)⟩ := by
  rw [asyncRetryGo]
  rw [if_pos hlt, hf attempt le_rfl hlt]
  simp only
  by_cases hlast : attempt < M - 1
  · rw [if_pos hlast]
    rw [asyncRetryGo_all_fail f d b M es (attempt + 1) (some (es attempt))
      (calls + 1) _ (by omega) (fun j hj hj2 => hf j (by omega) hj2)]
    have h1 : M - 1 - attempt = (M - 1 - (attempt + 1)) + 1 := by omega
    have h2 : calls + 1 + (M - (attempt + 1)) = calls + (M - attempt) := by
      omega
    rw [h1, List.range'_succ, h2]
    simp
  · rw [if_neg hlast]
    have hstop : ¬ (attempt + 1 < M) := by omega
    rw [asyncRetryGo, if_neg hstop]
    have h1 : attempt = M - 1 := by omega
    rw [h1]
    have h2 : calls + (M - (M - 1)) = calls + 1 := by omega
    have h3 : M - 1 - (M - 1) = 0 := by omega
    rw [h2, h3]
    simp
  termination_by M - attempt

/-- If attempts `attempt ≤ j < i` fail and attempt `i < M` succeeds with `a`,
the loop returns `.ok a` having made exactly the calls up to and including
attempt `i`. -/
theorem asyncRetryGo_first_success (f : Nat → Except ε α) (d b : ℚ) (M : Nat)
    (i : Nat) (a : α) (attempt : Nat) (lastError : Option ε) (calls : Nat)
    (sleeps : List ℚ) (hle : attempt ≤ i) (hi : i < M) (hok : f i = .ok a)
    (hf : ∀ j, attempt ≤ j → j < i → ∃ e, f j = .error e) :
    (asyncRetryGo f d b M attempt lastError calls sleeps).result = .ok a ∧
    (asyncRetryGo f d b M attempt lastError calls sleeps).calls =
      calls + (i - attempt) + 1 := by
  rw [asyncRetryGo]
  rw [if_pos (lt_of_le_of_lt hle hi)]
  by_cases heq : attempt = i
  · subst heq
    rw [hok]
    simp
  · obtain ⟨e, he⟩ := hf attempt le_rfl (by omega)
    rw [he]
    simp only
    have ih := asyncRetryGo_first_success f d b M i a (attempt + 1) (some e)
      (calls + 1)
      (if attempt < M - 1 then sleeps ++ [d * b ^ attempt] else sleeps)
      (by omega) hi hok (fun j hj hj2 => hf j (by omega) hj2)
    refine ⟨ih.1, ?_⟩
    rw [ih.2]
    omega
  termination_by M - attempt

/-- C1: for `max_attempts ≥ 1`, if some call of the wrapped function
succeeds (all earlier calls having raised), the wrapper returns that call's
result after exactly that many calls and makes no further calls; if every
one of the `max_attempts` calls raises, the wrapper makes exactly
`max_attempts` calls, sleeps `delay * backoff ^ attempt` between consecutive
attempts, and re-raises the last call's exception.  The same holds for
`create_with_retry` with backoff factor 2. -/
theorem C1_retry_behavior (ε α : Type) (M : Nat) (hM : 1 ≤ M) (d b : ℚ)
    (f : Nat → Except ε α) :
    (∀ i a, i < M → f i = .ok a → (∀ j, j < i → ∃ e, f j = .error e) →
      ((async_retry f M d b).result = .ok a ∧
        (async_retry f M d b).calls = i + 1) ∧
      ((create_with_retry f M d).result = .ok a ∧
        (create_with_retry f M d).calls = i + 1)) ∧
    (∀ es : Nat → ε, (∀ j, j < M → f j = .error (es j)) →
      async_retry f M d b =
        ⟨.error (some (es (M - 1))), M,
          (List.range (M - 1)).map (fun i => d * b ^ i)⟩ ∧
      create_with_retry f M d =
        ⟨.error (some (es (M - 1))), M,
          (List.range (M - 1)).map (fun i => d * 2 ^ i)⟩) := by
  constructor
  · intro i a hi hok hf
    have hfail : ∀ j, 0 ≤ j → j < i → ∃ e, f j = .error e :=
      fun j _ hj => hf j hj
    have h1 := asyncRetryGo_first_success f d b M i a 0 none 0 []
      (Nat.zero_le i) hi hok hfail
    have h2 := asyncRetryGo_first_success f d 2 M i a 0 none 0 []
      (Nat.zero_le i) hi hok hfail
    have hi1 : 0 + (i - 0) + 1 = i + 1 := by omega
    rw [hi1] at h1 h2
    exact ⟨h1, by rw [create_with_retry_eq]; exact h2⟩
  · intro es hes
    have h1 := asyncRetryGo_all_fail f d b M es 0 none 0 [] (by omega)
      (fun j _ hj => hes j hj)
    have h2 := asyncRetryGo_all_fail f d 2 M es 0 none 0 [] (by omega)
      (fun j _ hj => hes j hj)
    constructor
    · rw [async_retry, h1]
      simp [List.range_eq_range']
    · rw [create_with_retry_eq, async_retry, h2]
      simp [List.range_eq_range']

/-- Witness for C1 at a concrete input: two attempts, both failing with
error 7, initial delay 1, backoff 3: the wrapper calls twice, sleeps once
for `1 * 3 ^ 0 = 1`, and re-raises error 7. -/
theorem C1_retry_behavior_witness :
    1 ≤ 2 ∧ async_retry (fun _ => (.error 7 : Except Nat Nat)) 2 1 3 =
      ⟨.error (some 7), 2, [1]⟩ := by
  refine ⟨by decide, ?_⟩
  have h := ((C1_retry_behavior Nat Nat 2 (by decide) 1 3
      (fun _ => Except.error 7)).2 (fun _ => 7) (fun j hj => rfl)).1
  simpa using h

/-! ## AWS Lambda handler

Embedding of `lambda_handler` from
`src/autogen/aws_deployment/lambda_autogen.py` (lines 191-242).

The event is a dictionary; the handler reads the keys `action`, `task`,
`agent_type` and `pipeline`, all string-valued when present (`Option`
models `dict.get` returning `None`).  Python's truthiness test `if not
task` fails for a missing key and for the empty string.  The two workflow
runners `run_single_agent` and `run_multi_agent_pipeline` are parameters
(`Except String ρ` models a raising call, as caught by the handler's
`try/except`).  The handler's four `return` statements each build a
dictionary with exactly the keys `statusCode` and `body`, modelled by the
`LambdaResponse` structure; the body payloads are modelled by `LBody`. -/

inductive LBody (ρ : Type) where
  /-- `json.dumps({'error': 'Missing required parameter: <param>'})` -/
  | errorMissingParam (param : String)
  /-- `json.dumps({'error': f'Unknown action: {action}'})` -/
  | errorUnknownAction (action : String)
  /-- `json.dumps({'error': 'Internal server error', 'message': msg})` -/
  | errorInternal (msg : String)
  /-- `json.dumps(result)` for a workflow result -/
  | resultJson (r : ρ)
  deriving Repr, DecidableEq

structure LambdaResponse (ρ : Type) where
  statusCode : Nat
  body : LBody ρ
  deriving Repr, DecidableEq

structure LambdaEvent where
  action : Option String
  task : Option String
  agent_type : Option String
  pipeline : Option String
  deriving Repr, DecidableEq

/-- Python's `if not task` on `event.get('task')`: true when the key is
absent (`None`) or its value is falsy (empty string). -/
def taskFalsy (event : LambdaEvent) : Bool :=
  match event.task with
  | none => true
  | some t => t = ""

/-- `action = event.get('action', 'single_agent')`. -/
def actionOf (event : LambdaEvent) : String :=
  event.action.getD "single_agent"

/-- `lambda_handler(event, context)`, with the two workflow coroutines as
parameters: `runSingle task agent_type` and `runMulti task pipeline`. -/
def lambda_handler (runSingle : String → String → Except String ρ)
    (runMulti : String → String → Except String ρ)
    (event : LambdaEvent) : LambdaResponse ρ :=
  let action := actionOf event
  match event.task with
  | none => ⟨400, .errorMissingParam "task"⟩
  | some task =>
    if task = "" then ⟨400, .errorMissingParam "task"⟩
    else if action = "single_agent" then
      match runSingle task (event.agent_type.getD "assistant") with
      | .ok result => ⟨200, .resultJson result⟩
      | .error e => ⟨500, .errorInternal e⟩
    else if action = "multi_agent" then
      match runMulti task (event.pipeline.getD "research") with
      | .ok result => ⟨200, .resultJson result⟩
      | .error e => ⟨500, .errorInternal e⟩
    else ⟨400, .errorUnknownAction action⟩

/-- C2: with no (or falsy) `task` the handler returns 400 naming the missing
parameter and runs no workflow (the result does not depend on the workflow
runners); with a truthy `task` but an action other than `single_agent` and
`multi_agent` it returns 400 with an unknown-action error, again running no
workflow; if the selected workflow raises it returns 500, and if it returns
normally the handler returns 200 with the result as body.  Every response is
a `LambdaResponse`, i.e. a dictionary with exactly the keys `statusCode` and
`body`. -/
theorem C2_lambda_handler_contract (ρ : Type)
    (runSingle runMulti : String → String → Except String ρ)
    (event : LambdaEvent) :
    (taskFalsy event = true →
      lambda_handler runSingle runMulti event =
        ⟨400, .errorMissingParam "task"⟩ ∧
      ∀ (rs rm : String → String → Except String ρ),
        lambda_handler rs rm event = lambda_handler runSingle runMulti event) ∧
    (taskFalsy event = false → actionOf event ≠ "single_agent" →
      actionOf event ≠ "multi_agent" →
      lambda_handler runSingle runMulti event =
        ⟨400, .errorUnknownAction (actionOf event)⟩ ∧
      ∀ (rs rm : String → String → Except String ρ),
        lambda_handler rs rm event = lambda_handler runSingle runMulti event) ∧
    (∀ task, event.task = some task → taskFalsy event = false →
      (actionOf event = "single_agent" →
        (∀ e, runSingle task (event.agent_type.getD "assistant") = .error e →
          lambda_handler runSingle runMulti event = ⟨500, .errorInternal e⟩) ∧
        (∀ r, runSingle task (event.agent_type.getD "assistant") = .ok r →
          lambda_handler runSingle runMulti event = ⟨200, .resultJson r⟩)) ∧
      (actionOf event = "multi_agent" →
        (∀ e, runMulti task (event.pipeline.getD "research") = .error e →
          lambda_handler runSingle runMulti event = ⟨500, .errorInternal e⟩) ∧
        (∀ r, runMulti task (event.pipeline.getD "research") = .ok r →
          lambda_handler runSingle runMulti event = ⟨200, .resultJson r⟩))) := by
  refine ⟨?_, ?_, ?_⟩
  · intro hfalsy
    cases htask : event.task with
    | none =>
        constructor
        · simp [lambda_handler, htask]
        · intro rs rm
          simp [lambda_handler, htask]
    | some t =>
        have ht : t = "" := by
          simpa [taskFalsy, htask] using hfalsy
        subst ht
        constructor
        · simp [lambda_handler, htask]
        · intro rs rm
          simp [lambda_handler, htask]
  · intro hfalsy hsingle hmulti
    cases htask : event.task with
    | none => simp [taskFalsy, htask] at hfalsy
    | some t =>
        have ht : ¬ (t = "") := by
          simpa [taskFalsy, htask] using hfalsy
        constructor
        · simp [lambda_handler, htask, ht, hsingle, hmulti]
        · intro rs rm
          simp [lambda_handler, htask, ht, hsingle, hmulti]
  · intro task htask hfalsy
    have ht : ¬ (task = "") := by
      simpa [taskFalsy, htask] using hfalsy
    constructor
    · intro hact
      constructor
      · intro e he
        simp [lambda_handler, htask, ht, hact, he]
      · intro r hr
        simp [lambda_handler, htask, ht, hact, hr]
    · intro hact
      have hne : actionOf event ≠ "single_agent" := by
        rw [hact]
        decide
      constructor
      · intro e he
        simp [lambda_handler, htask, ht, hact, hne, he]
      · intro r hr
        simp [lambda_handler, htask, ht, hact, hne, hr]

/-- Witness for C2 at a concrete input: the empty event (no `task` key) is
falsy and yields the 400 missing-parameter response. -/
theorem C2_lambda_handler_contract_witness :
    taskFalsy ⟨none, none, none, none⟩ = true ∧
    lambda_handler (fun _ _ => (.ok 0 : Except String Nat)) (fun _ _ => .ok 0)
      ⟨none, none, none, none⟩ = ⟨400, .errorMissingParam "task"⟩ :=
  ⟨rfl,
    ((C2_lambda_handler_contract Nat (fun _ _ => .ok 0) (fun _ _ => .ok 0)
      ⟨none, none, none, none⟩).1 rfl).1⟩

/-! ## SyncCache change detection

Embedding of `SyncCache` from `src/autogen/studio/auto_sync_to_studio.py`
(lines 159-197).  The file system is `fs : String → Option (List Nat)`
(path to byte contents, `none` when opening/reading raises), the MD5 hex
digest is an abstract `md5 : List Nat → String` (Python's `hashlib` is
outside this repository), and the cache dictionary is
`cache : String → Option String` (`dict.get` returning `None` for a missing
entry). -/

/-- `SyncCache.get_file_hash`: MD5 hex digest of the file's bytes, or `""`
when reading raises (`except Exception: return ""`). -/
def get_file_hash (md5 : List Nat → String) (fs : String → Option (List Nat))
    (path : String) : String :=
  match fs path with
  | some contents => md5 contents
  | none => ""

/-- `SyncCache.has_changed`: `current_hash != cached_hash`, where the cached
side is `self.cache.get(file_path)` (possibly `None`). -/
def has_changed (md5 : List Nat → String) (fs : String → Option (List Nat))
    (cache : String → Option String) (path : String) : Bool :=
  some (get_file_hash md5 fs path) != cache path

/-- `SyncCache.update_file_hash`: store the current hash under the path
(the `_save_cache` write-through does not affect the mapping). -/
def update_file_hash (md5 : List Nat → String)
    (fs : String → Option (List Nat)) (cache : String → Option String)
    (path : String) : String → Option String :=
  fun p => if p = path then some (get_file_hash md5 fs path) else cache p

/-- C3: for a readable file, `has_changed` returns `True` exactly when the
MD5 digest of the current contents differs from the cached value; a path
with no cache entry is always reported as changed; and after
`update_file_hash`, `has_changed` on the unmodified file returns `False`. -/
theorem C3_has_changed_iff_digest_differs (md5 : List Nat → String)
    (fs : String → Option (List Nat)) (cache : String → Option String)
    (path : String) (contents : List Nat) (hread : fs path = some contents) :
    (has_changed md5 fs cache path = true ↔
      cache path ≠ some (md5 contents)) ∧
    (cache path = none → has_changed md5 fs cache path = true) ∧
    has_changed md5 fs (update_file_hash md5 fs cache path) path = false := by
  refine ⟨?_, ?_, ?_⟩
  · simp only [has_changed, get_file_hash, hread, bne_iff_ne]
    exact ne_comm
  · intro hnone
    simp [has_changed, get_file_hash, hread, hnone]
  · simp [has_changed, update_file_hash]

/-- Witness for C3 at a concrete input: file `"p"` with contents `[1, 2]`,
empty cache. -/
theorem C3_has_changed_iff_digest_differs_witness :
    (fun _ : String => some [1, 2]) "p" = some [1, 2] ∧
    has_changed (fun _ => "h") (fun _ => some [1, 2]) (fun _ => none) "p"
      = true := by
  refine ⟨rfl, ?_⟩
  exact (C3_has_changed_iff_digest_differs (fun _ => "h")
    (fun _ => some [1, 2]) (fun _ => none) "p" [1, 2] rfl).2.1 rfl

/-- C9: for an unreadable path, `get_file_hash` returns `""` (it never
raises); `has_changed` then returns `True` exactly when the cache does not
hold `""` for that path (in particular when it holds a non-empty hash or no
entry), and after `update_file_hash` stores `""` it returns `False` — a
deleted file is reported as changed exactly once. -/
theorem C9_unreadable_file_hash (md5 : List Nat → String)
    (fs : String → Option (List Nat)) (cache : String → Option String)
    (path : String) (hmiss : fs path = none) :
    get_file_hash md5 fs path = "" ∧
    (has_changed md5 fs cache path = true ↔ cache path ≠ some "") ∧
    has_changed md5 fs (update_file_hash md5 fs cache path) path = false := by
  refine ⟨?_, ?_, ?_⟩
  · simp [get_file_hash, hmiss]
  · simp only [has_changed, get_file_hash, hmiss, bne_iff_ne]
    exact ne_comm
  · simp [has_changed, update_file_hash]

/-- Witness for C9 at a concrete input: path `"gone"` unreadable, cache
holding the stale hash `"h"`: reported as changed. -/
theorem C9_unreadable_file_hash_witness :
    (fun _ : String => (none : Option (List Nat))) "gone" = none ∧
    has_changed (fun _ => "h") (fun _ => none) (fun _ => some "h") "gone"
      = true := by
  refine ⟨rfl, ?_⟩
  exact ((C9_unreadable_file_hash (fun _ => "h") (fun _ => none)
    (fun _ => some "h") "gone" rfl).2.1).mpr (by simp)

/-! ## Bounded-concurrency batch sync

Embedding of `AutoGenStudioSync.sync_agents_batch`
(`src/autogen/studio/auto_sync_to_studio.py` lines 428-478).  The code
creates one task per agent config, each of shape

    async def sync_single_agent(config):
        async with semaphore:            -- semaphore = asyncio.Semaphore(5)
            return await self._sync_single_agent(...)

and gathers them with `asyncio.gather`.  The cooperative event loop is
modelled as a transition system: each task is `waiting` (created, not yet
holding the semaphore), `running` (holding the semaphore, its registration
request in flight), or `done r` (finished with result `r`, semaphore
released).  `acquire` fires only when the semaphore counter is positive,
exactly `asyncio.Semaphore`'s semantics; interleaving is arbitrary, so
completions occur in arbitrary order. -/

/-- `batch_size = 5  # Configurable batch size` (line 443). -/
def batch_size : Nat := 5

inductive TaskPhase (ρ : Type) where
  | waiting
  | running
  | done (r : ρ)

/-- Event-loop state: the semaphore's counter and the per-task phases. -/
structure BatchState (ρ : Type) where
  sem : Nat
  tasks : List (TaskPhase ρ)

/-- Initial state of `sync_agents_batch` over `n` agent configs:
`asyncio.Semaphore(batch_size)` fresh, all `n` sync tasks created. -/
def initBatchState (ρ : Type) (n : Nat) : BatchState ρ :=
  ⟨batch_size, List.replicate n .waiting⟩

/-- One event-loop step: a waiting task acquires the semaphore (only when
its counter is positive) and starts its registration request, or a running
task finishes with some result and releases the semaphore. -/
inductive BatchStep (ρ : Type) : BatchState ρ → BatchState ρ → Prop where
  | acquire (s : BatchState ρ) (i : Nat) (hi : s.tasks[i]? = some .waiting)
      (hsem : 0 < s.sem) :
      BatchStep ρ s ⟨s.sem - 1, s.tasks.set i .running⟩
  | finish (s : BatchState ρ) (i : Nat) (r : ρ)
      (hi : s.tasks[i]? = some .running) :
      BatchStep ρ s ⟨s.sem + 1, s.tasks.set i (.done r)⟩

/-- States reachable during a `sync_agents_batch` run over `n` configs. -/
def BatchReachable (ρ : Type) (n : Nat) (s : BatchState ρ) : Prop :=
  Relation.ReflTransGen (BatchStep ρ) (initBatchState ρ n) s

def isRunningPhase : TaskPhase ρ → Bool
  | .running => true
  | _ => false

/-- Number of registration requests in flight. -/
def inFlight (s : BatchState ρ) : Nat :=
  s.tasks.countP isRunningPhase

def extractResult : TaskPhase ρ → Option ρ
  | .done r => some r
  | _ => none

/-- The list built by `asyncio.gather(*sync_tasks)` once all tasks are
done. -/
def gatherResults (s : BatchState ρ) : List ρ :=
  s.tasks.filterMap extractResult

def allDone (s : BatchState ρ) : Prop :=
  ∀ t ∈ s.tasks, ∃ r, t = TaskPhase.done r

theorem countP_set_eq (p : α → Bool) (l : List α) (i : Nat) (a b : α)
    (h : l[i]? = some a) :
    (l.set i b).countP p + (if p a then 1 else 0) =
      l.countP p + (if p b then 1 else 0) := by
  induction l generalizing i with
  | nil => simp at h
  | cons c tl ih =>
      cases i with
      | zero =>
          simp only [List.getElem?_cons_zero, Option.some.injEq] at h
          subst h
          simp only [List.set_cons_zero, List.countP_cons]
          omega
      | succ j =>
          simp only [List.getElem?_cons_succ] at h
          simp only [List.set_cons_succ, List.countP_cons]
          have := ih j h
          omega

theorem countP_replicate_waiting (n : Nat) :
    (List.replicate n (TaskPhase.waiting : TaskPhase ρ)).countP
      isRunningPhase = 0 := by
  induction n with
  | zero => rfl
  | succ m ih => simp [List.replicate_succ, List.countP_cons, ih, isRunningPhase]

theorem length_filterMap_extract (l : List (TaskPhase ρ))
    (h : ∀ t ∈ l, ∃ r, t = TaskPhase.done r) :
    (l.filterMap extractResult).length = l.length := by
  induction l with
  | nil => rfl
  | cons c tl ih =>
      obtain ⟨r, hr⟩ := h c (by simp)
      subst hr
      simp only [List.filterMap_cons, extractResult, List.length_cons]
      rw [ih (fun t ht => h t (by simp [ht]))]

/-- Semaphore invariant: the counter plus the number of in-flight requests
is always `batch_size`, and the task list never changes length. -/
theorem batch_invariant (ρ : Type) (n : Nat) (s : BatchState ρ)
    (h : BatchReachable ρ n s) :
    s.sem + inFlight s = batch_size ∧ s.tasks.length = n := by
  induction h with
  | refl =>
      constructor
      · simp [initBatchState, inFlight, countP_replicate_waiting]
      · simp [initBatchState]
  | @tail b c hab hbc ih =>
      obtain ⟨hsem, hlen⟩ := ih
      cases hbc with
      | acquire i hi hpos =>
          have hc := countP_set_eq isRunningPhase b.tasks i
            TaskPhase.waiting TaskPhase.running hi
          simp [isRunningPhase] at hc
          constructor
          · simp only [inFlight] at hsem ⊢
            omega
          · simpa using hlen
      | finish i r hi =>
          have hc := countP_set_eq isRunningPhase b.tasks i
            TaskPhase.running (TaskPhase.done r) hi
          simp [isRunningPhase] at hc
          constructor
          · simp only [inFlight] at hsem ⊢
            omega
          · simpa using hlen

/-- C4: throughout any run of `sync_agents_batch` over `n` agent configs,
at most `batch_size = 5` registration requests are in flight (a task runs
`_sync_single_agent` only while holding the semaphore), and once every task
has completed — in whatever order — the gathered results list has exactly
`n` entries, one per input agent config. -/
theorem C4_batch_semaphore_bound (ρ : Type) (n : Nat) (s : BatchState ρ)
    (h : BatchReachable ρ n s) :
    inFlight s ≤ batch_size ∧ s.tasks.length = n ∧
    (allDone s → (gatherResults s).length = n) := by
  obtain ⟨hsem, hlen⟩ := batch_invariant ρ n s h
  refine ⟨by omega, hlen, ?_⟩
  intro hdone
  rw [gatherResults, length_filterMap_extract s.tasks hdone, hlen]

/-- Witness for C4 at a concrete input: three configs, after the first task
has acquired the semaphore and started its request. -/
theorem C4_batch_semaphore_bound_witness :
    inFlight (⟨4, [TaskPhase.running, TaskPhase.waiting, TaskPhase.waiting]⟩ :
      BatchState Nat) ≤ batch_size := by
  have hstep : BatchStep Nat (initBatchState Nat 3)
      ⟨4, [TaskPhase.running, TaskPhase.waiting, TaskPhase.waiting]⟩ := by
    have h := BatchStep.acquire (ρ := Nat) (initBatchState Nat 3) 0
      (by simp [initBatchState, List.replicate]) (by simp [initBatchState, batch_size])
    simpa [initBatchState, batch_size, List.replicate] using h
  exact (C4_batch_semaphore_bound Nat 3 _
    (Relation.ReflTransGen.single hstep)).1

/-! ## Performance summary

Embedding of `PerformanceMonitor.get_summary`
(`src/autogen/studio/auto_sync_to_studio.py` lines 103-146).  A recorded
`PerformanceMetrics` dataclass carries `operation`, `start_time`,
`end_time` and `success`; `__post_init__` derives
`latency_ms = (end_time - start_time) * 1000`.  Latencies are rationals
(the code's floats, with exact arithmetic).  The grouping dictionary
`operation_stats` is an insertion-ordered association list, as in CPython.
The wall-clock field `total_runtime_seconds = time.time() - self.start_time`
is passed in as the parameter `runtime_seconds`. -/

structure PerformanceMetrics where
  operation : String
  start_time : ℚ
  end_time : ℚ
  success : Bool
  deriving DecidableEq

/-- `__post_init__`: `self.latency_ms = (self.end_time - self.start_time) * 1000`. -/
def PerformanceMetrics.latency_ms (m : PerformanceMetrics) : ℚ :=
  (m.end_time - m.start_time) * 1000

/-- The running entry of `operation_stats[op]` before averages are filled
in: `{'count': …, 'success_count': …, 'total_latency': …}`. -/
structure RawOpStats where
  count : Nat
  success_count : Nat
  total_latency : ℚ

/-- Loop body lines 127-130: bump `count`, `success_count` (when the metric
succeeded) and `total_latency`. -/
def addMetric (st : RawOpStats) (m : PerformanceMetrics) : RawOpStats :=
  ⟨st.count + 1, st.success_count + (if m.success then 1 else 0),
    st.total_latency + m.latency_ms⟩

/-- Dictionary lookup on an insertion-ordered association list. -/
def alGet (k : String) : List (String × RawOpStats) → Option RawOpStats
  | [] => none
  | (k1, v) :: rest => if k1 = k then some v else alGet k rest

/-- In-place dictionary update `operation_stats[key] = f(operation_stats[key])`
on an insertion-ordered association list. -/
def updateStats (key : String) (f : RawOpStats → RawOpStats) :
    List (String × RawOpStats) → List (String × RawOpStats)
  | [] => []
  | (k, v) :: rest =>
      if k = key then (k, f v) :: rest
      else (k, v) :: updateStats key f rest

/-- One iteration of the `for metric in self.metrics` grouping loop (lines
119-130): create a zeroed entry when the operation is new, then bump it. -/
def statsInsertStep (stats : List (String × RawOpStats))
    (m : PerformanceMetrics) : List (String × RawOpStats) :=
  updateStats m.operation (fun st => addMetric st m)
    (if (alGet m.operation stats).isSome then stats
     else stats ++ [(m.operation, ⟨0, 0, 0⟩)])

def buildOperationStats (metrics : List PerformanceMetrics) :
    List (String × RawOpStats) :=
  metrics.foldl statsInsertStep []

/-- A finished `operation_stats` entry after lines 133-135 added
`avg_latency` and `success_rate`. -/
structure OpStats where
  count : Nat
  success_count : Nat
  total_latency : ℚ
  avg_latency : ℚ
  success_rate : ℚ

def finalizeStats (st : RawOpStats) : OpStats :=
  ⟨st.count, st.success_count, st.total_latency,
    st.total_latency / (st.count : ℚ),
    ((st.success_count : ℚ) / (st.count : ℚ)) * 100⟩

/-- Python's `max()` over a non-empty iterable (the `[]` branch is
unreachable: `get_summary` returns early when no metrics are recorded). -/
def pyMax : List ℚ → ℚ
  | [] => 0
  | x :: xs => xs.foldl max x

def pyMin : List ℚ → ℚ
  | [] => 0
  | x :: xs => xs.foldl min x

structure Summary where
  total_operations : Nat
  successful_operations : Nat
  success_rate_percent : ℚ
  avg_latency_ms : ℚ
  max_latency_ms : ℚ
  min_latency_ms : ℚ
  operation_breakdown : List (String × OpStats)
  total_runtime_seconds : ℚ

inductive SummaryResult where
  | error (msg : String)
  | summary (s : Summary)

/-- `PerformanceMonitor.get_summary`. -/
def get_summary (metrics : List PerformanceMetrics)
    (runtime_seconds : ℚ) : SummaryResult :=
  let total_operations := metrics.length
  let successful_operations := metrics.countP (·.success)
  if total_operations = 0 then .error "No operations recorded"
  else
    let lats := metrics.map (·.latency_ms)
    let avg_latency := lats.sum / (total_operations : ℚ)
    let success_rate := ((successful_operations : ℚ) /
      (total_operations : ℚ)) * 100
    let operation_stats := (buildOperationStats metrics).map
      (fun p => (p.1, finalizeStats p.2))
    .summary ⟨total_operations, successful_operations, success_rate,
      avg_latency, pyMax lats, pyMin lats, operation_stats, runtime_seconds⟩

/-- Specification-side per-operation totals: count, successes and summed
latency among the metrics of one operation. -/
def rawOf (op : String) (metrics : List PerformanceMetrics) : RawOpStats :=
  ⟨(metrics.filter (fun m => m.operation = op)).length,
    (metrics.filter (fun m => m.operation = op)).countP (·.success),
    ((metrics.filter (fun m => m.operation = op)).map (·.latency_ms)).sum⟩

theorem foldl_max_mem (x : ℚ) (xs : List ℚ) : xs.foldl max x ∈ x :: xs := by
  induction xs generalizing x with
  | nil => simp
  | cons c tl ih =>
      simp only [List.foldl_cons]
      rcases List.mem_cons.mp (ih (max x c)) with h1 | h1
      · rw [h1]
        rcases max_choice x c with hc | hc
        · rw [hc]; exact List.mem_cons_self _ _
        · rw [hc]; exact List.mem_cons_of_mem _ (List.mem_cons_self _ _)
      · exact List.mem_cons_of_mem _ (List.mem_cons_of_mem _ h1)

theorem le_foldl_max (x : ℚ) (xs : List ℚ) :
    ∀ y, y ∈ x :: xs → y ≤ xs.foldl max x := by
  induction xs generalizing x with
  | nil =>
      intro y hy
      simp only [List.mem_singleton] at hy
      simp [hy]
  | cons c tl ih =>
      intro y hy
      simp only [List.foldl_cons]
      have hmax := ih (max x c) (max x c) (List.mem_cons_self _ _)
      rcases List.mem_cons.mp hy with h1 | h1
      · rw [h1]
        exact le_trans (le_max_left x c) hmax
      rcases List.mem_cons.mp h1 with h2 | h2
      · rw [h2]
        exact le_trans (le_max_right x c) hmax
      · exact ih (max x c) y (List.mem_cons_of_mem _ h2)

theorem foldl_min_mem (x : ℚ) (xs : List ℚ) : xs.foldl min x ∈ x :: xs := by
  induction xs generalizing x with
  | nil => simp
  | cons c tl ih =>
      simp only [List.foldl_cons]
      rcases List.mem_cons.mp (ih (min x c)) with h1 | h1
      · rw [h1]
        rcases min_choice x c with hc | hc
        · rw [hc]; exact List.mem_cons_self _ _
        · rw [hc]; exact List.mem_cons_of_mem _ (List.mem_cons_self _ _)
      · exact List.mem_cons_of_mem _ (List.mem_cons_of_mem _ h1)

theorem foldl_min_le (x : ℚ) (xs : List ℚ) :
    ∀ y, y ∈ x :: xs → xs.foldl min x ≤ y := by
  induction xs generalizing x with
  | nil =>
      intro y hy
      simp only [List.mem_singleton] at hy
      simp [hy]
  | cons c tl ih =>
      intro y hy
      simp only [List.foldl_cons]
      have hmin := ih (min x c) (min x c) (List.mem_cons_self _ _)
      rcases List.mem_cons.mp hy with h1 | h1
      · rw [h1]
        exact le_trans hmin (min_le_left x c)
      rcases List.mem_cons.mp h1 with h2 | h2
      · rw [h2]
        exact le_trans hmin (min_le_right x c)
      · exact ih (min x c) y (List.mem_cons_of_mem _ h2)

theorem alGet_updateStats_self (key : String) (f : RawOpStats → RawOpStats)
    (l : List (String × RawOpStats)) :
    alGet key (updateStats key f l) = (alGet key l).map f := by
  induction l with
  | nil => rfl
  | cons p rest ih =>
      obtain ⟨k, v⟩ := p
      by_cases h : k = key
      · subst h
        simp [updateStats, alGet]
      · simp [updateStats, alGet, h, ih]

theorem alGet_updateStats_ne (k key : String) (hne : k ≠ key)
    (f : RawOpStats → RawOpStats) (l : List (String × RawOpStats)) :
    alGet k (updateStats key f l) = alGet k l := by
  induction l with
  | nil => rfl
  | cons p rest ih =>
      obtain ⟨k1, v⟩ := p
      by_cases h : k1 = key
      · subst h
        simp [updateStats, alGet, Ne.symm hne]
      · by_cases h2 : k1 = k
        · subst h2
          simp [updateStats, alGet, h]
        · simp [updateStats, alGet, h, h2, ih]

theorem alGet_append_of_none (k : String)
    (l1 l2 : List (String × RawOpStats)) (h : alGet k l1 = none) :
    alGet k (l1 ++ l2) = alGet k l2 := by
  induction l1 with
  | nil => rfl
  | cons p rest ih =>
      obtain ⟨k1, v⟩ := p
      by_cases h2 : k1 = k
      · subst h2
        simp [alGet] at h
      · simp only [alGet, if_neg h2] at h
        simpa [alGet, h2] using ih h

theorem alGet_append_of_some (k : String)
    (l1 l2 : List (String × RawOpStats)) (w : RawOpStats)
    (h : alGet k l1 = some w) :
    alGet k (l1 ++ l2) = some w := by
  induction l1 with
  | nil => simp [alGet] at h
  | cons p rest ih =>
      obtain ⟨k1, v⟩ := p
      by_cases h2 : k1 = k
      · subst h2
        simp only [alGet, if_pos rfl] at h
        simpa [alGet] using h
      · simp only [alGet, if_neg h2] at h
        simpa [alGet, h2] using ih h

theorem alGet_none_iff_not_mem_keys (k : String)
    (l : List (String × RawOpStats)) :
    alGet k l = none ↔ k ∉ l.map Prod.fst := by
  induction l with
  | nil => simp [alGet]
  | cons p rest ih =>
      obtain ⟨k1, v⟩ := p
      by_cases h2 : k1 = k
      · subst h2
        simp [alGet]
      · simp [alGet, h2, ih, Ne.symm h2]

theorem alGet_of_mem_of_nodup (k : String) (v : RawOpStats)
    (l : List (String × RawOpStats)) (hnd : (l.map Prod.fst).Nodup)
    (h : (k, v) ∈ l) : alGet k l = some v := by
  induction l with
  | nil => simp at h
  | cons p rest ih =>
      obtain ⟨k1, v1⟩ := p
      simp only [List.map_cons, List.nodup_cons] at hnd
      rcases List.mem_cons.mp h with h1 | h1
      · injection h1 with hk hv
        subst hk
        subst hv
        simp [alGet]
      · by_cases h2 : k1 = k
        · subst h2
          exact absurd (List.mem_map_of_mem Prod.fst h1) hnd.1
        · simpa [alGet, h2] using ih hnd.2 h1

theorem alGet_some_mem (k : String) (v : RawOpStats)
    (l : List (String × RawOpStats)) (h : alGet k l = some v) : (k, v) ∈ l := by
  induction l with
  | nil => simp [alGet] at h
  | cons p rest ih =>
      obtain ⟨k1, v1⟩ := p
      by_cases h2 : k1 = k
      · subst h2
        have h3 : some v1 = some v := by simpa [alGet] using h
        injection h3 with h4
        subst h4
        exact List.mem_cons_self _ _
      · simp only [alGet, if_neg h2] at h
        exact List.mem_cons_of_mem _ (ih h)

theorem keys_updateStats (key : String) (f : RawOpStats → RawOpStats)
    (l : List (String × RawOpStats)) :
    (updateStats key f l).map Prod.fst = l.map Prod.fst := by
  induction l with
  | nil => rfl
  | cons p rest ih =>
      obtain ⟨k, v⟩ := p
      by_cases h : k = key <;> simp [updateStats, h, ih]

theorem keys_statsInsertStep (stats : List (String × RawOpStats))
    (m : PerformanceMetrics) :
    (statsInsertStep stats m).map Prod.fst =
      if (alGet m.operation stats).isSome then stats.map Prod.fst
      else stats.map Prod.fst ++ [m.operation] := by
  unfold statsInsertStep
  by_cases hs : (alGet m.operation stats).isSome <;>
    simp [hs, keys_updateStats]

theorem nodup_keys_fold (l : List PerformanceMetrics)
    (acc : List (String × RawOpStats)) (h : (acc.map Prod.fst).Nodup) :
    ((l.foldl statsInsertStep acc).map Prod.fst).Nodup := by
  induction l generalizing acc with
  | nil => exact h
  | cons m tl ih =>
      apply ih
      rw [keys_statsInsertStep]
      by_cases hs : (alGet m.operation acc).isSome
      · simpa [hs] using h
      · have hnone : alGet m.operation acc = none :=
          Option.not_isSome_iff_eq_none.mp hs
        have hnot := (alGet_none_iff_not_mem_keys _ _).mp hnone
        rw [if_neg hs]
        simp only [List.nodup_append, List.nodup_cons, List.not_mem_nil,
          not_false_iff, List.nodup_nil, and_true, true_and]
        exact ⟨h, by simpa [List.disjoint_singleton] using hnot⟩

theorem alGet_statsInsertStep_self (stats : List (String × RawOpStats))
    (m : PerformanceMetrics) :
    alGet m.operation (statsInsertStep stats m) =
      some (addMetric ((alGet m.operation stats).getD ⟨0, 0, 0⟩) m) := by
  unfold statsInsertStep
  cases halg : alGet m.operation stats with
  | some st =>
      rw [if_pos (by simp [halg])]
      rw [alGet_updateStats_self, halg]
      rfl
  | none =>
      rw [if_neg (by simp [halg])]
      rw [alGet_updateStats_self, alGet_append_of_none _ _ _ halg]
      simp [alGet]

theorem alGet_statsInsertStep_ne (stats : List (String × RawOpStats))
    (m : PerformanceMetrics) (op : String) (hne : op ≠ m.operation) :
    alGet op (statsInsertStep stats m) = alGet op stats := by
  unfold statsInsertStep
  rw [alGet_updateStats_ne op m.operation hne]
  by_cases hs : (alGet m.operation stats).isSome
  · rw [if_pos hs]
  · rw [if_neg hs]
    cases halg2 : alGet op stats with
    | some w => exact alGet_append_of_some op _ _ w halg2
    | none =>
        rw [alGet_append_of_none op _ _ halg2]
        simp [alGet, Ne.symm hne]

theorem alGet_buildFold_some (l : List PerformanceMetrics)
    (acc : List (String × RawOpStats)) (op : String) (st : RawOpStats)
    (h : alGet op acc = some st) :
    alGet op (l.foldl statsInsertStep acc) =
      some ((l.filter (fun m => m.operation = op)).foldl addMetric st) := by
  induction l generalizing acc st with
  | nil => simpa using h
  | cons m tl ih =>
      simp only [List.foldl_cons]
      by_cases hop : m.operation = op
      · subst hop
        have hstep : alGet m.operation (statsInsertStep acc m) =
            some (addMetric st m) := by
          rw [alGet_statsInsertStep_self acc m, h]
          rfl
        rw [ih (statsInsertStep acc m) (addMetric st m) hstep]
        rw [List.filter_cons_of_pos (by simp)]
        rw [List.foldl_cons]
      · have hne : op ≠ m.operation := Ne.symm hop
        have hstep : alGet op (statsInsertStep acc m) = some st := by
          rw [alGet_statsInsertStep_ne acc m op hne, h]
        rw [ih (statsInsertStep acc m) st hstep]
        rw [List.filter_cons_of_neg (by simp [hop])]

theorem alGet_buildFold_none (l : List PerformanceMetrics)
    (acc : List (String × RawOpStats)) (op : String)
    (h : alGet op acc = none) :
    alGet op (l.foldl statsInsertStep acc) =
      if (l.filter (fun m => m.operation = op)) = [] then none
      else some ((l.filter (fun m => m.operation = op)).foldl
        addMetric ⟨0, 0, 0⟩) := by
  induction l generalizing acc with
  | nil => simpa using h
  | cons m tl ih =>
      simp only [List.foldl_cons]
      by_cases hop : m.operation = op
      · subst hop
        have hstep : alGet m.operation (statsInsertStep acc m) =
            some (addMetric ⟨0, 0, 0⟩ m) := by
          rw [alGet_statsInsertStep_self acc m, h]
          rfl
        rw [alGet_buildFold_some tl (statsInsertStep acc m) m.operation
          (addMetric ⟨0, 0, 0⟩ m) hstep]
        rw [List.filter_cons_of_pos (by simp)]
        rw [if_neg (List.cons_ne_nil _ _)]
        rw [List.foldl_cons]
      · have hne : op ≠ m.operation := Ne.symm hop
        have hstep : alGet op (statsInsertStep acc m) = none := by
          rw [alGet_statsInsertStep_ne acc m op hne, h]
        rw [ih (statsInsertStep acc m) hstep]
        rw [List.filter_cons_of_neg (by simp [hop])]

theorem foldl_addMetric_closed (fl : List PerformanceMetrics)
    (st : RawOpStats) :
    fl.foldl addMetric st =
      ⟨st.count + fl.length, st.success_count + fl.countP (·.success),
        st.total_latency + (fl.map (·.latency_ms)).sum⟩ := by
  induction fl generalizing st with
  | nil =>
      obtain ⟨c, sc, tot⟩ := st
      simp
  | cons m tl ih =>
      simp only [List.foldl_cons]
      rw [ih (addMetric st m)]
      simp only [addMetric, RawOpStats.mk.injEq, List.length_cons,
        List.countP_cons, List.map_cons, List.sum_cons]
      refine ⟨by omega, by omega, by ring⟩

theorem mem_buildOperationStats (metrics : List PerformanceMetrics)
    (op : String) (st : RawOpStats)
    (h : (op, st) ∈ buildOperationStats metrics) : st = rawOf op metrics := by
  have hnd := nodup_keys_fold metrics [] (by simp)
  have halg := alGet_of_mem_of_nodup op st _ hnd h
  rw [alGet_buildFold_none metrics [] op rfl] at halg
  by_cases hfil : metrics.filter (fun m => m.operation = op) = []
  · rw [if_pos hfil] at halg
    cases halg
  · rw [if_neg hfil] at halg
    injection halg with halg2
    rw [foldl_addMetric_closed] at halg2
    rw [← halg2]
    simp [rawOf]

theorem buildOperationStats_covers (metrics : List PerformanceMetrics)
    (op : String) (h : op ∈ metrics.map (·.operation)) :
    ∃ st, (op, st) ∈ buildOperationStats metrics := by
  obtain ⟨m, hm, hop⟩ := List.mem_map.mp h
  have hfil : metrics.filter (fun m2 => m2.operation = op) ≠ [] := by
    intro hnil
    have hmem : m ∈ metrics.filter (fun m2 => m2.operation = op) :=
      List.mem_filter.mpr ⟨hm, by simp [hop]⟩
    rw [hnil] at hmem
    simp at hmem
  have halg : alGet op (buildOperationStats metrics) =
      some ((metrics.filter (fun m2 => m2.operation = op)).foldl
        addMetric ⟨0, 0, 0⟩) := by
    rw [show buildOperationStats metrics = metrics.foldl statsInsertStep []
      from rfl]
    rw [alGet_buildFold_none metrics [] op rfl]
    rw [if_neg hfil]
  exact ⟨_, alGet_some_mem _ _ _ halg⟩

/-- C5: with no recorded metrics `get_summary` returns the error dictionary
`{"error": "No operations recorded"}`; with at least one metric it returns a
summary whose `avg_latency_ms` is the arithmetic mean of the `latency_ms`
fields, whose `max_latency_ms`/`min_latency_ms` are their maximum and
minimum, whose `success_rate_percent` is 100 times the successful count over
the total count, and whose per-operation breakdown carries, for every listed
operation, the mean latency and success percentage among that operation's
metrics (every operation that occurs is listed). -/
theorem C5_get_summary_aggregates (metrics : List PerformanceMetrics)
    (rt : ℚ) :
    get_summary [] rt = .error "No operations recorded" ∧
    (metrics ≠ [] → ∃ s, get_summary metrics rt = .summary s ∧
      s.total_operations = metrics.length ∧
      s.successful_operations = metrics.countP (·.success) ∧
      s.avg_latency_ms =
        (metrics.map (·.latency_ms)).sum / (metrics.length : ℚ) ∧
      (∀ m ∈ metrics, m.latency_ms ≤ s.max_latency_ms) ∧
      (∃ m ∈ metrics, m.latency_ms = s.max_latency_ms) ∧
      (∀ m ∈ metrics, s.min_latency_ms ≤ m.latency_ms) ∧
      (∃ m ∈ metrics, m.latency_ms = s.min_latency_ms) ∧
      s.success_rate_percent =
        100 * (metrics.countP (·.success) : ℚ) / (metrics.length : ℚ) ∧
      (∀ op st, (op, st) ∈ s.operation_breakdown →
        st.avg_latency =
          ((metrics.filter (fun m => m.operation = op)).map
            (·.latency_ms)).sum /
            ((metrics.filter (fun m => m.operation = op)).length : ℚ) ∧
        st.success_rate =
          100 * ((metrics.filter (fun m => m.operation = op)).countP
            (·.success) : ℚ) /
            ((metrics.filter (fun m => m.operation = op)).length : ℚ)) ∧
      (∀ op, op ∈ metrics.map (·.operation) →
        ∃ st, (op, st) ∈ s.operation_breakdown)) := by
  constructor
  · rfl
  · intro hne
    have hlen : metrics.length ≠ 0 := by
      simpa [List.length_eq_zero] using hne
    have hsum : get_summary metrics rt = .summary
        ⟨metrics.length, metrics.countP (·.success),
          ((metrics.countP (·.success) : ℚ) / (metrics.length : ℚ)) * 100,
          (metrics.map (·.latency_ms)).sum / (metrics.length : ℚ),
          pyMax (metrics.map (·.latency_ms)),
          pyMin (metrics.map (·.latency_ms)),
          (buildOperationStats metrics).map
            (fun p => (p.1, finalizeStats p.2)),
          rt⟩ := by
      simp only [get_summary]
      rw [if_neg hlen]
    refine ⟨_, hsum, rfl, rfl, rfl, ?_, ?_, ?_, ?_, ?_, ?_, ?_⟩
    · intro m hm
      have hmem : m.latency_ms ∈ metrics.map (·.latency_ms) :=
        List.mem_map_of_mem _ hm
      cases metrics with
      | nil => exact absurd rfl hne
      | cons m0 rest =>
          simp only [List.map_cons] at hmem ⊢
          exact le_foldl_max _ _ _ hmem
    · cases metrics with
      | nil => exact absurd rfl hne
      | cons m0 rest =>
          have hmem : pyMax ((m0 :: rest).map (·.latency_ms)) ∈
              (m0 :: rest).map (·.latency_ms) := by
            simp only [List.map_cons, pyMax]
            exact foldl_max_mem _ _
          obtain ⟨m, hm, hl⟩ := List.mem_map.mp hmem
          exact ⟨m, hm, hl⟩
    · intro m hm
      have hmem : m.latency_ms ∈ metrics.map (·.latency_ms) :=
        List.mem_map_of_mem _ hm
      cases metrics with
      | nil => exact absurd rfl hne
      | cons m0 rest =>
          simp only [List.map_cons] at hmem ⊢
          exact foldl_min_le _ _ _ hmem
    · cases metrics with
      | nil => exact absurd rfl hne
      | cons m0 rest =>
          have hmem : pyMin ((m0 :: rest).map (·.latency_ms)) ∈
              (m0 :: rest).map (·.latency_ms) := by
            simp only [List.map_cons, pyMin]
            exact foldl_min_mem _ _
          obtain ⟨m, hm, hl⟩ := List.mem_map.mp hmem
          exact ⟨m, hm, hl⟩
    · ring
    · intro op st hmem
      obtain ⟨p, hp, heq⟩ := List.mem_map.mp hmem
      obtain ⟨op0, raw⟩ := p
      injection heq with h1 h2
      subst h1
      have hraw := mem_buildOperationStats metrics op0 raw hp
      subst hraw
      rw [← h2]
      constructor
      · rfl
      · simp only [finalizeStats, rawOf]
        ring
    · intro op hop
      obtain ⟨st, hst⟩ := buildOperationStats_covers metrics op hop
      exact ⟨finalizeStats st,
        List.mem_map_of_mem (fun p => (p.1, finalizeStats p.2)) hst⟩

/-- Witness for C5 at a concrete input: a single successful metric for
operation `"op1"` lasting one second has average latency 1000 ms and
success rate 100. -/
theorem C5_get_summary_aggregates_witness :
    ([⟨"op1", 0, 1, true⟩] : List PerformanceMetrics) ≠ [] ∧
    ∃ s, get_summary [⟨"op1", 0, 1, true⟩] 2 = .summary s ∧
      s.avg_latency_ms = 1000 ∧ s.success_rate_percent = 100 := by
  refine ⟨by simp, ?_⟩
  obtain ⟨s, hs, h1, h2, havg, h3, h4, h5, h6, hrate, h7, h8⟩ :=
    (C5_get_summary_aggregates [⟨"op1", 0, 1, true⟩] 2).2 (by simp)
  refine ⟨s, hs, ?_, ?_⟩
  · rw [havg]
    norm_num [PerformanceMetrics.latency_ms]
  · rw [hrate]
    norm_num

/-! ## Agent config validation and JSON scanning

Embedding of `AutoGenStudioSync._is_valid_agent_config` (lines 373-376) and
the JSON branch of `AutoGenStudioSync.scan_agent_files` (lines 317-371).
A parsed config is a dictionary `List (String × V)` with arbitrary values
`V` (the predicate inspects keys only).  Each file encountered by the glob
loop is summarised as a `ScanFile`: a `.json` file carries its parse result
(`none` when `json.loads` raises, which the `try/except` swallows) and its
`has_changed` status; a `.py` file carries the configs
`_extract_configs_from_python` produced. -/

/-- Python's `field in config` on a dictionary. -/
def hasKey (k : String) (config : List (String × V)) : Bool :=
  config.any (fun p => p.1 = k)

/-- `_is_valid_agent_config`:
`all(field in config for field in required_fields)`. -/
def is_valid_agent_config (config : List (String × V)) : Bool :=
  ["name", "description", "system_message"].all (fun field => hasKey field config)

/-- Dictionary assignment `config[k] = v`. -/
def dictSet (k : String) (v : V) : List (String × V) → List (String × V)
  | [] => [(k, v)]
  | (k1, v1) :: rest =>
      if k1 = k then (k, v) :: rest else (k1, v1) :: dictSet k v rest

inductive ScanFile (V : Type) where
  | jsonFile (path : String) (parsed : Option (List (String × V)))
      (changed : Bool)
  | pyFile (path : String) (extracted : List (List (String × V)))
      (changed : Bool)

/-- The configs one file adds to `agent_configs` in the scan loop: an
unchanged file is skipped; a changed `.json` file whose contents parse and
satisfy `_is_valid_agent_config` contributes the config with `_file_path`
set; a changed `.py` file contributes whatever was extracted, each with
`_file_path` set. -/
def scanContribution (strVal : String → V) :
    ScanFile V → List (List (String × V))
  | .jsonFile path parsed changed =>
      if changed then
        match parsed with
        | some config =>
            if is_valid_agent_config config then
              [dictSet "_file_path" (strVal path) config]
            else []
        | none => []
      else []
  | .pyFile path extracted changed =>
      if changed then extracted.map (dictSet "_file_path" (strVal path))
      else []

/-- `scan_agent_files` over the files the glob patterns produced, in
order (`strVal` embeds the `str(file_path)` value into the value type). -/
def scan_agent_files (strVal : String → V) (files : List (ScanFile V)) :
    List (List (String × V)) :=
  files.flatMap (scanContribution strVal)

/-- C6: `_is_valid_agent_config` returns `True` exactly when the three keys
`name`, `description` and `system_message` are present — nothing about the
values is checked — and the scan adds a JSON file's contents only when the
file changed, its contents parsed, and this predicate holds of them. -/
theorem C6_valid_agent_config (V : Type) :
    (∀ config : List (String × V),
      is_valid_agent_config config = true ↔
        ("name" ∈ config.map Prod.fst ∧
         "description" ∈ config.map Prod.fst ∧
         "system_message" ∈ config.map Prod.fst)) ∧
    (∀ (strVal : String → V) (path : String)
        (parsed : Option (List (String × V)))
        (changed : Bool) (c : List (String × V)),
      c ∈ scanContribution strVal (.jsonFile path parsed changed) →
      ∃ c0, parsed = some c0 ∧ is_valid_agent_config c0 = true ∧
        changed = true ∧ c = dictSet "_file_path" (strVal path) c0) := by
  constructor
  · intro config
    simp only [is_valid_agent_config, hasKey, List.all_cons, List.all_nil,
      Bool.and_eq_true, and_true, List.any_eq_true, decide_eq_true_eq]
    constructor
    · rintro ⟨⟨p1, hp1, he1⟩, ⟨p2, hp2, he2⟩, ⟨p3, hp3, he3⟩⟩
      exact ⟨he1 ▸ List.mem_map_of_mem Prod.fst hp1,
        he2 ▸ List.mem_map_of_mem Prod.fst hp2,
        he3 ▸ List.mem_map_of_mem Prod.fst hp3⟩
    · rintro ⟨h1, h2, h3⟩
      obtain ⟨p1, hp1, he1⟩ := List.mem_map.mp h1
      obtain ⟨p2, hp2, he2⟩ := List.mem_map.mp h2
      obtain ⟨p3, hp3, he3⟩ := List.mem_map.mp h3
      exact ⟨⟨p1, hp1, he1⟩, ⟨p2, hp2, he2⟩, ⟨p3, hp3, he3⟩⟩
  · intro strVal path parsed changed c hc
    cases changed with
    | false => simp [scanContribution] at hc
    | true =>
        cases parsed with
        | none => simp [scanContribution] at hc
        | some config =>
            by_cases hv : is_valid_agent_config config = true
            · simp only [scanContribution, if_true, hv,
                List.mem_singleton] at hc
              exact ⟨config, rfl, hv, rfl, hc⟩
            · simp [scanContribution, hv] at hc

/-- Witness for C6 at a concrete input: a changed JSON file whose config
has the three required keys is contributed with `_file_path` set. -/
theorem C6_valid_agent_config_witness :
    dictSet "_file_path" "a.json"
        [("name", "n"), ("description", "d"), ("system_message", "s")] ∈
      scanContribution id (ScanFile.jsonFile "a.json"
        (some [("name", "n"), ("description", "d"),
          ("system_message", "s")]) true) ∧
    ∃ c0, some [("name", "n"), ("description", "d"),
        ("system_message", "s")] = some c0 ∧
      is_valid_agent_config c0 = true ∧ (true : Bool) = true ∧
      dictSet "_file_path" "a.json"
          [("name", "n"), ("description", "d"), ("system_message", "s")] =
        dictSet "_file_path" (id "a.json") c0 := by
  have hmem : dictSet "_file_path" "a.json"
      [("name", "n"), ("description", "d"), ("system_message", "s")] ∈
      scanContribution id (ScanFile.jsonFile "a.json"
        (some [("name", "n"), ("description", "d"),
          ("system_message", "s")]) true) := by
    simp [scanContribution, is_valid_agent_config, hasKey]
  exact ⟨hmem,
    (C6_valid_agent_config String).2 id "a.json" _ true _ hmem⟩

/-! ## Demo performance simulations

Embedding of `PerformanceDemo.simulate_agent_registration_old` (lines
129-143) and `simulate_agent_registration_new` (lines 145-170) of
`src/autogen/studio/demo_performance_test.py`.  Python's built-in `hash`
on strings is runtime-dependent, so it is an abstract parameter
`h : String → Int`; Python's `%` on a positive modulus agrees with `Int`'s
`%` (both Euclidean).  The `time.sleep(0.5)` / `asyncio.sleep(0.1)` calls
only pause; the counters are a pure function of the agent names. -/

structure DemoAgent where
  name : Option String

/-- `agent.get('name', '')`. -/
def demoAgentName (a : DemoAgent) : String :=
  a.name.getD ""

/-- The sequential loop: count a success when
`hash(agent.get('name', '')) % 100 < 85`, else a failure. -/
def simulate_agent_registration_old (h : String → Int)
    (agents : List DemoAgent) : Nat × Nat :=
  agents.foldl (fun results agent =>
    if h (demoAgentName agent) % 100 < 85 then (results.1 + 1, results.2)
    else (results.1, results.2 + 1)) (0, 0)

/-- `register_agent`: simulated 95 % success. -/
def registerAgentNew (h : String → Int) (agent : DemoAgent) : Bool :=
  h (demoAgentName agent) % 100 < 95

/-- The `for i in range(0, len(agents), batch_size)` loop of the new
simulation: process batches of 5 and tally each batch's results. -/
def simNewGo (h : String → Int) (agents : List DemoAgent)
    (results : Nat × Nat) : Nat × Nat :=
  if agents.isEmpty then results
  else
    simNewGo h (agents.drop 5)
      ((agents.take 5).foldl (fun r a =>
        if registerAgentNew h a then (r.1 + 1, r.2) else (r.1, r.2 + 1))
        results)
  termination_by agents.length
  decreasing_by
    rename_i he
    rw [List.isEmpty_iff] at he
    have hpos : 0 < agents.length := List.length_pos.mpr he
    simp only [List.length_drop]
    omega

def simulate_agent_registration_new (h : String → Int)
    (agents : List DemoAgent) : Nat × Nat :=
  simNewGo h agents (0, 0)

theorem old_tally (h : String → Int) (l : List DemoAgent) (r : Nat × Nat) :
    (l.foldl (fun results agent =>
      if h (demoAgentName agent) % 100 < 85 then (results.1 + 1, results.2)
      else (results.1, results.2 + 1)) r) =
      (r.1 + l.countP (fun a => h (demoAgentName a) % 100 < 85),
        r.2 + (l.length -
          l.countP (fun a => h (demoAgentName a) % 100 < 85))) := by
  induction l generalizing r with
  | nil => simp
  | cons a tl ih =>
      have hle := List.countP_le_length
        (p := fun a => decide (h (demoAgentName a) % 100 < 85)) (l := tl)
      by_cases hp : h (demoAgentName a) % 100 < 85
      · rw [List.foldl_cons, if_pos hp, ih]
        have hd : decide (h (demoAgentName a) % 100 < 85) = true := by
          simpa using hp
        simp only [List.countP_cons, List.length_cons, hd, if_true,
          Prod.mk.injEq]
        constructor <;> omega
      · rw [List.foldl_cons, if_neg hp, ih]
        have hd : decide (h (demoAgentName a) % 100 < 85) = false := by
          simpa using hp
        simp only [List.countP_cons, List.length_cons, hd, Bool.false_eq_true,
          if_false, Prod.mk.injEq]
        constructor <;> omega

theorem foldl_tally (p : DemoAgent → Bool) (l : List DemoAgent)
    (r : Nat × Nat) :
    (l.foldl (fun r a => if p a then (r.1 + 1, r.2) else (r.1, r.2 + 1)) r) =
      (r.1 + l.countP p, r.2 + (l.length - l.countP p)) := by
  induction l generalizing r with
  | nil => simp
  | cons a tl ih =>
      have hle := List.countP_le_length (p := p) (l := tl)
      by_cases hp : p a = true
      · simp only [List.foldl_cons, hp, if_true, ih, List.countP_cons,
          List.length_cons, Prod.mk.injEq, hp]
        constructor <;> omega
      · simp only [List.foldl_cons, hp, if_false, ih, List.countP_cons,
          List.length_cons, Prod.mk.injEq, Bool.false_eq_true]
        constructor <;> omega

theorem simNewGo_tally (h : String → Int) (agents : List DemoAgent)
    (r : Nat × Nat) :
    simNewGo h agents r =
      (r.1 + agents.countP (registerAgentNew h),
        r.2 + (agents.length - agents.countP (registerAgentNew h))) := by
  rw [simNewGo]
  by_cases he : agents.isEmpty
  · rw [if_pos he]
    rw [List.isEmpty_iff] at he
    subst he
    simp
  · rw [if_neg he]
    rw [foldl_tally (registerAgentNew h) (agents.take 5) r]
    rw [simNewGo_tally h (agents.drop 5) _]
    have hsplit : agents.countP (registerAgentNew h) =
        (agents.take 5).countP (registerAgentNew h) +
          (agents.drop 5).countP (registerAgentNew h) := by
      rw [← List.countP_append, List.take_append_drop]
    have hlen : agents.length = (agents.take 5).length +
        (agents.drop 5).length := by
      rw [← List.length_append, List.take_append_drop]
    have h1 := List.countP_le_length (p := registerAgentNew h)
      (l := agents.take 5)
    have h2 := List.countP_le_length (p := registerAgentNew h)
      (l := agents.drop 5)
    simp only [Prod.mk.injEq]
    constructor <;> omega
  termination_by agents.length
  decreasing_by
    rw [List.isEmpty_iff] at he
    have hpos : 0 < agents.length := List.length_pos.mpr he
    simp only [List.length_drop]
    omega

/-- C7: the old simulation counts an agent as a success exactly when
`hash(name) % 100 < 85` and the new one exactly when `hash(name) % 100 < 95`
(with `''` for a missing name); in both, success plus failure counts equal
the number of input agents.  Both counters are pure functions of the agent
names — no network measurement is involved. -/
theorem C7_simulated_registration (h : String → Int)
    (agents : List DemoAgent) :
    (simulate_agent_registration_old h agents).1 =
      agents.countP (fun a => h (demoAgentName a) % 100 < 85) ∧
    (simulate_agent_registration_old h agents).1 +
      (simulate_agent_registration_old h agents).2 = agents.length ∧
    (simulate_agent_registration_new h agents).1 =
      agents.countP (fun a => h (demoAgentName a) % 100 < 95) ∧
    (simulate_agent_registration_new h agents).1 +
      (simulate_agent_registration_new h agents).2 = agents.length := by
  have hold := old_tally h agents (0, 0)
  have hnew := simNewGo_tally h agents (0, 0)
  have h1 := List.countP_le_length
    (p := fun a => decide (h (demoAgentName a) % 100 < 85)) (l := agents)
  have h2 := List.countP_le_length (p := registerAgentNew h) (l := agents)
  refine ⟨?_, ?_, ?_, ?_⟩
  · rw [simulate_agent_registration_old, hold]
    simp
  · rw [simulate_agent_registration_old, hold]
    simp only
    omega
  · rw [simulate_agent_registration_new, hnew]
    simp only [Nat.zero_add]
    rfl
  · rw [simulate_agent_registration_new, hnew]
    simp only
    omega

/-! ## Sync script CLI dispatch

Embedding of `main` in `src/autogen/studio/auto_sync_to_studio.py` (lines
670-694).  The three `store_true` flags select, via an `if/elif` chain, one
of four effects; each effect is represented as a label.
`printWatchNotImplemented` stands for the single
`print("🔄 Watch mode not implemented yet")` call — no synchronization,
analysis, network or file operation happens on that branch. -/

inductive MainAction where
  | runPerformanceAnalysis
  | runAutomatedSync
  | printWatchNotImplemented
  | printUsage
  deriving DecidableEq

/-- `main()`: `if args.analyze: … elif args.sync: … elif args.watch: …
else: …`. -/
def mainDispatch (analyze sync watch : Bool) : MainAction :=
  if analyze then .runPerformanceAnalysis
  else if sync then .runAutomatedSync
  else if watch then .printWatchNotImplemented
  else .printUsage

/-- C8: invoking the script with only `--watch` reaches the
not-implemented print and nothing else; `--analyze` runs the performance
analysis and `--sync` (without `--analyze`) runs the automated
synchronization. -/
theorem C8_watch_unimplemented :
    mainDispatch false false true = MainAction.printWatchNotImplemented ∧
    (∀ s w, mainDispatch true s w = MainAction.runPerformanceAnalysis) ∧
    (∀ w, mainDispatch false true w = MainAction.runAutomatedSync) :=
  ⟨rfl, fun _ _ => rfl, fun _ => rfl⟩

end AutoGenCC
